import Mathlib

/-!
Verification of the HearMeOut audio-emotion pipeline.

Shallow embedding of the core algorithms of the repository:
* `src/ml-service/config.py` — constants and the emotion→emoji table;
* `src/ml-service/utils/emoji_mapper.py` — `emotions_to_emojis`;
* `src/ml-service/utils/audio_processor.py` — `load_audio`;
* `src/ml-service/utils/emotion_detector.py` — `EmotionDetector.predict`;
* `src/Model/app.py` — `merged_strategy`, `predict_emotion`, the HTTP
  handlers and the pooling-mode initialization.

Numeric values carried by lists are embedded as rationals where only
order/arithmetic matters, and as reals where the code applies `softmax`
(exponentials).  The emoji strings are the exact string literals of the
source files, written with unicode escapes.
-/

set_option maxHeartbeats 1000000

/-! ## Configuration (src/ml-service/config.py) -/

def SAMPLE_RATE : ℕ := 16000

def MAX_AUDIO_LENGTH_SECONDS : ℕ := 60

def MIN_AUDIO_LENGTH_SECONDS : ℕ := 1

/-- The static emotion→emoji table `EMOTION_TO_EMOJI` of
`src/ml-service/config.py`, as an association list in the dictionary's
insertion order.  Each emoji is the exact string literal of the source. -/
def EMOTION_TO_EMOJI : List (String × List String) :=
  [ ("angry",     ["ğŸ˜ ", "ğŸ˜¡", "ğŸ˜¤"])
  , ("calm",      ["ğŸ˜Œ", "ğŸ˜‡", "ğŸ™‚"])
  , ("disgust",   ["ğŸ˜’", "ğŸ™„", "ğŸ˜‘"])
  , ("fearful",   ["ğŸ˜°", "ğŸ˜¨", "ğŸ˜±"])
  , ("happy",     ["ğŸ˜Š", "ğŸ˜„", "ğŸ¥°"])
  , ("neutral",   ["ğŸ˜",       "ğŸ˜¶", "ğŸ¤”"])
  , ("sad",       ["ğŸ˜¢", "ğŸ˜”", "ğŸ˜"])
  , ("surprised", ["ğŸ˜®", "ğŸ˜¯", "ğŸ˜²"])
  ]

/-! ## Emoji mapper (src/ml-service/utils/emoji_mapper.py) -/

/-- One entry of the ScoreList handed to the mapper: the Python dict
`{'emotion': str, 'score': float}` produced by the detector. -/
structure EmotionScore where
  emotion : String
  score : ℚ
deriving DecidableEq, Repr

/-- One element of `emoji_candidates`: the dict
`{'emoji': ..., 'weight': score, 'emotion': emotion}` built in the loop. -/
structure EmojiCandidate where
  emoji : String
  weight : ℚ
  emotion : String
deriving DecidableEq, Repr

/-- Python's `str.lower()`, mapping `Char.toLower` over the characters
(the emotion labels involved are ASCII). -/
def pyLower (s : String) : String := ⟨s.data.map Char.toLower⟩

/-- Dictionary lookup `config.EMOTION_TO_EMOJI[emotion]` guarded by
`emotion in config.EMOTION_TO_EMOJI`. -/
def lookupEmoji (emotion : String) : Option (List String) :=
  (EMOTION_TO_EMOJI.find? (fun p => p.1 == emotion)).map (·.2)

/-- The candidates contributed by one considered ScoreList entry
(the body of the `for emotion_data in top_emotions` loop). -/
def candidatesOf (d : EmotionScore) : List EmojiCandidate :=
  match lookupEmoji (pyLower d.emotion) with
  | some emojis => emojis.map (fun em => ⟨em, d.score, pyLower d.emotion⟩)
  | none => []

/-- `emoji_candidates` after the generation loop: the top
`min(5, len(scores))` entries expanded in order. -/
def genCandidates (emotion_scores : List EmotionScore) : List EmojiCandidate :=
  ((emotion_scores.take 5).map candidatesOf).flatten

/-- The order used by `sorted(..., key=lambda x: x['weight'], reverse=True)`:
`a` may precede `b` iff `b.weight ≤ a.weight`.  Python's `sorted` is a stable
sort for this order; `List.insertionSort` is a stable sort for the same order
(`List.sublist_insertionSort`), and a stable sort of a list for a fixed total
preorder is unique, so the two compute the same function. -/
def weightRel (a b : EmojiCandidate) : Prop := b.weight ≤ a.weight

instance : DecidableRel weightRel :=
  fun a b => inferInstanceAs (Decidable (b.weight ≤ a.weight))

instance : IsTotal EmojiCandidate weightRel :=
  ⟨fun a b => le_total b.weight a.weight⟩

instance : IsTrans EmojiCandidate weightRel :=
  ⟨fun _ _ _ hab hbc => le_trans hbc hab⟩

/-- The dedup loop: traverse the sorted candidates, keep a candidate iff its
emoji has not been seen, recording seen emojis. -/
def dedupFirst : List EmojiCandidate → List String → List EmojiCandidate
  | [], _ => []
  | c :: cs, seen =>
      if c.emoji ∈ seen then dedupFirst cs seen
      else c :: dedupFirst cs (c.emoji :: seen)

/-- The fixed default neutral emoji list returned when no candidate was
produced (the exact three string literals of the source). -/
def DEFAULT_EMOJIS : List String :=
  ["ğŸ˜", "ğŸ˜¶", "ğŸ¤”"]

/-- `emotions_to_emojis` of `src/ml-service/utils/emoji_mapper.py`. -/
def emotions_to_emojis (emotion_scores : List EmotionScore) (top_k : ℕ) : List String :=
  let emoji_candidates := genCandidates emotion_scores
  if emoji_candidates = [] then DEFAULT_EMOJIS
  else
    let sortedCands := List.insertionSort weightRel emoji_candidates
    let unique_candidates := dedupFirst sortedCands []
    (unique_candidates.take top_k).map EmojiCandidate.emoji

example : emotions_to_emojis [] 2 = DEFAULT_EMOJIS := by decide
example : emotions_to_emojis [⟨"HAPPY", 1⟩] 2 =
    ["ğŸ˜Š", "ğŸ˜„"] := by decide

/-! ## Audio loader (src/ml-service/utils/audio_processor.py, `load_audio`)

The decode step (librosa) is external; the embedding starts from the decoded
mono signal (a list of samples) and the sample rate returned by the decoder
(`config.SAMPLE_RATE`).  The too-short `ValueError` raised at line 26 is
re-raised by the `except` wrapper with its message preserved; it is embedded
as the distinguished `tooShort` failure. -/

inductive AudioLoadError where
  | tooShort (duration : ℚ)
deriving DecidableEq, Repr

/-- Duration validation and truncation of `load_audio` (lines 24–33). -/
def load_audio (audio : List ℚ) (sr : ℕ) : Except AudioLoadError (List ℚ × ℕ) :=
  let duration : ℚ := (audio.length : ℚ) / (sr : ℚ)
  if duration < (MIN_AUDIO_LENGTH_SECONDS : ℚ) then
    .error (.tooShort duration)
  else if duration > (MAX_AUDIO_LENGTH_SECONDS : ℚ) then
    let max_samples := MAX_AUDIO_LENGTH_SECONDS * sr
    .ok (audio.take max_samples, sr)
  else
    .ok (audio, sr)

/-! ## Pooling (src/Model/app.py, `Wav2Vec2ForSpeechClassification.merged_strategy`)

A hidden-state sequence for one input is a list of frames, each frame a list
of rationals of the hidden dimension.  `torch.mean/sum/max(·, dim=1)`
collapse the frame dimension elementwise. -/

inductive PoolingError where
  | invalidPoolingMode
deriving DecidableEq, Repr

/-- Elementwise sum across frames (`torch.sum(hidden_states, dim=1)`). -/
def sumPool : List (List ℚ) → List ℚ
  | [] => []
  | f :: fs => fs.foldl (fun acc v => acc.zipWith (· + ·) v) f

/-- Arithmetic mean across frames (`torch.mean(hidden_states, dim=1)`). -/
def meanPool (frames : List (List ℚ)) : List ℚ :=
  (sumPool frames).map (· / (frames.length : ℚ))

/-- Elementwise maximum across frames (`torch.max(hidden_states, dim=1)[0]`). -/
def maxPool : List (List ℚ) → List ℚ
  | [] => []
  | f :: fs => fs.foldl (fun acc v => acc.zipWith max v) f

/-- `merged_strategy` (lines 64–73): dispatch on the mode string, any other
mode raises (`The pooling method hasn't been defined!`). -/
def merged_strategy (hidden_states : List (List ℚ)) (mode : String) :
    Except PoolingError (List ℚ) :=
  if mode = "mean" then .ok (meanPool hidden_states)
  else if mode = "sum" then .ok (sumPool hidden_states)
  else if mode = "max" then .ok (maxPool hidden_states)
  else .error .invalidPoolingMode

/-! ## Pooling-mode initialization (src/Model/app.py, `__init__`, line 53) -/

/-- The part of the loaded model configuration the classifier constructor
reads for pooling: `pooling_mode` is `none` when the config object defines
no such attribute. -/
structure Wav2Vec2Config where
  pooling_mode : Option String
deriving DecidableEq, Repr

/-- `getattr(config, 'pooling_mode', 'mean')` of `__init__`. -/
def init_pooling_mode (config : Wav2Vec2Config) : String :=
  config.pooling_mode.getD "mean"

/-- The pooling step of `forward` (line 86):
`self.merged_strategy(hidden_states, mode=self.pooling_mode)`. -/
def forward_pooling (config : Wav2Vec2Config) (hidden_states : List (List ℚ)) :
    Except PoolingError (List ℚ) :=
  merged_strategy hidden_states (init_pooling_mode config)

/-! ## HTTP handlers relevant to readiness (C6)

`src/ml-service/app.py` `analyze_audio` checks the two global models before
touching the pipeline and answers 503; `src/Model/app.py` `predict` has no
such check: with the `model`/`feature_extractor` globals still `None`, a
valid request reaches `predict_emotion`, which raises (calling `None`), and
the route's `except` answers 500.  The embedding records the HTTP status,
the `success` flag and whether the inference pipeline was entered. -/

structure HandlerOutcome where
  status : ℕ
  success : Bool
  pipeline_invoked : Bool
deriving DecidableEq, Repr

/-- `analyze_audio` of src/ml-service/app.py (lines 80–155), abstracted over
whether the upload is present and whether the pipeline itself succeeds. -/
def analyze_audio (emotion_detector_loaded whisper_loaded : Bool)
    (has_audio_file : Bool) (pipeline_ok : Bool) : HandlerOutcome :=
  if !(emotion_detector_loaded && whisper_loaded) then ⟨503, false, false⟩
  else if !has_audio_file then ⟨400, false, false⟩
  else if pipeline_ok then ⟨200, true, true⟩
  else ⟨500, false, true⟩

/-- The request-shape facts `predict` of src/Model/app.py validates before
calling `predict_emotion`. -/
structure PredictRequest where
  has_json : Bool
  has_audio_path : Bool
  path_exists : Bool
  path_is_file : Bool
deriving DecidableEq, Repr

/-- `predict` of src/Model/app.py (lines 263–317).  There is no readiness
check: when `model_loaded` is false the call still enters `predict_emotion`,
which fails, and the `except` branch answers 500. -/
def predict_route (model_loaded : Bool) (req : PredictRequest)
    (pipeline_ok : Bool) : HandlerOutcome :=
  if !req.has_json then ⟨400, false, false⟩
  else if !req.has_audio_path then ⟨400, false, false⟩
  else if !req.path_exists then ⟨404, false, false⟩
  else if !req.path_is_file then ⟨400, false, false⟩
  else if model_loaded then
    (if pipeline_ok then ⟨200, true, true⟩ else ⟨500, false, true⟩)
  else ⟨500, false, true⟩

/-! ## Softmax and the emotion detector
(src/ml-service/utils/emotion_detector.py, `EmotionDetector.predict`;
src/Model/app.py, `predict_emotion`)

`torch.nn.functional.softmax` on a logit vector is
`exp xᵢ / Σⱼ exp xⱼ`; the exponentials force a real-number embedding. -/

noncomputable def softmax (logits : List ℝ) : List ℝ :=
  logits.map (fun x => Real.exp x / (logits.map Real.exp).sum)

/-- One entry of the detector's ScoreList: `{'emotion': ..., 'score': ...}`. -/
structure DetScore where
  emotion : String
  score : ℝ

/-- The order of `emotion_scores.sort(key=lambda x: x['score'], reverse=True)`
(stable descending by score); as for the mapper, the stable sort is embedded
with `List.insertionSort`. -/
def detRel (a b : DetScore) : Prop := b.score ≤ a.score

noncomputable instance : DecidableRel detRel :=
  fun a b => inferInstanceAs (Decidable (b.score ≤ a.score))

instance : IsTotal DetScore detRel :=
  ⟨fun a b => le_total b.score a.score⟩

instance : IsTrans DetScore detRel :=
  ⟨fun _ _ _ hab hbc => le_trans hbc hab⟩

/-- `EmotionDetector.predict` after the encoder produced the logits
(lines 65–80): softmax, pair each probability with its label from
`id2label`, sort descending by score. -/
noncomputable def detector_predict (labels : List String) (logits : List ℝ) :
    List DetScore :=
  let probs := softmax logits
  let emotion_scores := List.zipWith (fun e s => DetScore.mk e s) labels probs
  List.insertionSort detRel emotion_scores

/-! ## predict_emotion (src/Model/app.py, lines 154–190) -/

def EMOTIONS : List String :=
  ["angry", "calm", "disgust", "fearful", "happy", "neutral", "sad", "surprised"]

/-- `np.argmax`: the first index attaining the maximum of the list. -/
noncomputable def argmaxIdx : List ℝ → ℕ
  | [] => 0
  | [_] => 0
  | x :: y :: rest =>
      if x < (y :: rest).getD (argmaxIdx (y :: rest)) 0 then
        argmaxIdx (y :: rest) + 1
      else 0

structure PredictionResult where
  predicted_emotion : String
  confidence : ℝ
  all_scores : List (String × ℝ)

/-- `predict_emotion` after the model produced the logits (lines 176–190):
softmax over the logits, `predicted_id = np.argmax(scores)`,
`predicted_emotion = EMOTIONS[predicted_id]`,
`confidence = scores[predicted_id]`,
`all_scores = {emotion: score for emotion, score in zip(EMOTIONS, scores)}`. -/
noncomputable def predict_emotion (logits : List ℝ) : PredictionResult :=
  let scores := softmax logits
  let predicted_id := argmaxIdx scores
  { predicted_emotion := EMOTIONS.getD predicted_id ""
  , confidence := scores.getD predicted_id 0
  , all_scores := EMOTIONS.zip scores }

/-! ## Lemmas about the dedup stage of the emoji mapper -/

theorem dedupFirst_sublist : ∀ (l : List EmojiCandidate) (seen : List String),
    List.Sublist (dedupFirst l seen) l
  | [], _ => List.Sublist.refl _
  | c :: cs, seen => by
      by_cases hc : c.emoji ∈ seen
      · rw [dedupFirst, if_pos hc]
        exact (dedupFirst_sublist cs seen).cons c
      · rw [dedupFirst, if_neg hc]
        exact (dedupFirst_sublist cs (c.emoji :: seen)).cons₂ c

theorem dedupFirst_not_seen : ∀ (l : List EmojiCandidate) (seen : List String)
    (d : EmojiCandidate), d ∈ dedupFirst l seen → d.emoji ∉ seen
  | [], _, _, h => by simp [dedupFirst] at h
  | c :: cs, seen, d, h => by
      by_cases hc : c.emoji ∈ seen
      · rw [dedupFirst, if_pos hc] at h
        exact dedupFirst_not_seen cs seen d h
      · rw [dedupFirst, if_neg hc] at h
        rcases List.mem_cons.mp h with rfl | h
        · exact hc
        · have hd := dedupFirst_not_seen cs (c.emoji :: seen) d h
          exact fun hs => hd (List.mem_cons_of_mem _ hs)

theorem dedupFirst_nodup : ∀ (l : List EmojiCandidate) (seen : List String),
    ((dedupFirst l seen).map EmojiCandidate.emoji).Nodup
  | [], _ => by simp [dedupFirst]
  | c :: cs, seen => by
      by_cases hc : c.emoji ∈ seen
      · rw [dedupFirst, if_pos hc]
        exact dedupFirst_nodup cs seen
      · rw [dedupFirst, if_neg hc]
        refine List.nodup_cons.mpr ⟨?_, dedupFirst_nodup cs (c.emoji :: seen)⟩
        intro hmem
        rcases List.mem_map.mp hmem with ⟨d, hd, he⟩
        exact dedupFirst_not_seen cs (c.emoji :: seen) d hd
          (he ▸ List.mem_cons_self _ _)

theorem dedupFirst_find : ∀ (l : List EmojiCandidate) (seen : List String)
    (d : EmojiCandidate), d ∈ dedupFirst l seen →
    l.find? (fun c => c.emoji == d.emoji) = some d
  | [], _, _, h => by simp [dedupFirst] at h
  | c :: cs, seen, d, h => by
      by_cases hc : c.emoji ∈ seen
      · rw [dedupFirst, if_pos hc] at h
        have hne : d.emoji ∉ seen := dedupFirst_not_seen cs seen d h
        have hcd : ¬(c.emoji == d.emoji) = true := by
          simp only [beq_iff_eq]
          intro he
          exact hne (he ▸ hc)
        rw [List.find?_cons_of_neg (p := fun x : EmojiCandidate => x.emoji == d.emoji) _ hcd]
        exact dedupFirst_find cs seen d h
      · rw [dedupFirst, if_neg hc] at h
        rcases List.mem_cons.mp h with rfl | h
        · exact List.find?_cons_of_pos (p := fun x : EmojiCandidate => x.emoji == d.emoji) _ (by simp)
        · have hne : d.emoji ∉ c.emoji :: seen :=
            dedupFirst_not_seen cs (c.emoji :: seen) d h
          have hcd : ¬(c.emoji == d.emoji) = true := by
            simp only [beq_iff_eq]
            intro he
            exact hne (he ▸ List.mem_cons_self _ _)
          rw [List.find?_cons_of_neg (p := fun x : EmojiCandidate => x.emoji == d.emoji) _ hcd]
          exact dedupFirst_find cs (c.emoji :: seen) d h

theorem dedupFirst_covers : ∀ (l : List EmojiCandidate) (seen : List String)
    (c : EmojiCandidate), c ∈ l → c.emoji ∉ seen →
    c.emoji ∈ (dedupFirst l seen).map EmojiCandidate.emoji
  | [], _, _, hmem, _ => absurd hmem (List.not_mem_nil _)
  | x :: xs, seen, c, hmem, hseen => by
      by_cases hx : x.emoji ∈ seen
      · rw [dedupFirst, if_pos hx]
        rcases List.mem_cons.mp hmem with rfl | hmem
        · exact absurd hx hseen
        · exact dedupFirst_covers xs seen c hmem hseen
      · rw [dedupFirst, if_neg hx]
        rcases List.mem_cons.mp hmem with rfl | hmem
        · exact List.mem_cons_self _ _
        · by_cases hce : c.emoji = x.emoji
          · rw [List.map_cons, hce]
            exact List.mem_cons_self _ _
          · have : c.emoji ∉ x.emoji :: seen := by
              intro hs
              rcases List.mem_cons.mp hs with h | h
              · exact hce h
              · exact hseen h
            exact List.mem_cons_of_mem _
              (dedupFirst_covers xs (x.emoji :: seen) c hmem this)

/-- If no considered label is mapped, the generation loop produces nothing. -/
theorem genCandidates_nil_of_unmapped (scores : List EmotionScore)
    (h : ∀ d ∈ scores, lookupEmoji (pyLower d.emotion) = none) :
    genCandidates scores = [] := by
  unfold genCandidates
  rw [List.flatten_eq_nil_iff]
  intro l hl
  rcases List.mem_map.mp hl with ⟨d, hd, rfl⟩
  have := h d (List.mem_of_mem_take hd)
  simp [candidatesOf, this]

/-- C2, counterexample: with an empty ScoreList and `top_k = 2` the mapper
returns the fixed 3-symbol default, so the output length exceeds `top_k`;
the universally quantified length bound of the claim is false. -/
theorem emotions_to_emojis_default_breaks_top_k :
    (emotions_to_emojis [] 2).length = 3 ∧
    ¬((emotions_to_emojis [] 2).length ≤ 2) := by
  decide

/-- C2 (amended): for every ScoreList and every `top_k`, the output has no
duplicate symbols; the output length is at most `top_k` whenever at least one
candidate was produced; and with an empty or fully-unmapped ScoreList the
output equals the fixed 3-symbol default (of any length), bypassing `top_k`. -/
theorem emotions_to_emojis_bounds (scores : List EmotionScore) (top_k : ℕ) :
    (genCandidates scores ≠ [] → (emotions_to_emojis scores top_k).length ≤ top_k)
    ∧ (emotions_to_emojis scores top_k).Nodup
    ∧ ((scores = [] ∨ ∀ d ∈ scores, lookupEmoji (pyLower d.emotion) = none) →
        emotions_to_emojis scores top_k = DEFAULT_EMOJIS) := by
  refine ⟨?_, ?_, ?_⟩
  · intro h
    simp only [emotions_to_emojis, if_neg h]
    rw [List.length_map, List.length_take]
    exact min_le_left _ _
  · by_cases h : genCandidates scores = []
    · simp only [emotions_to_emojis, h, if_pos]
      decide
    · simp only [emotions_to_emojis, if_neg h]
      rw [List.map_take]
      exact (dedupFirst_nodup _ _).sublist (List.take_sublist _ _)
  · intro h
    have hnil : genCandidates scores = [] := by
      rcases h with rfl | h
      · rfl
      · exact genCandidates_nil_of_unmapped _ h
    simp [emotions_to_emojis, hnil]

/-- C2, witness: a mapped label respects the bound, the empty list gives the
default. -/
theorem emotions_to_emojis_bounds_witness :
    genCandidates [⟨"happy", (1 : ℚ)⟩] ≠ []
    ∧ (emotions_to_emojis [⟨"happy", (1 : ℚ)⟩] 2).length ≤ 2
    ∧ emotions_to_emojis [] 2 = DEFAULT_EMOJIS :=
  ⟨by decide,
   (emotions_to_emojis_bounds [⟨"happy", (1 : ℚ)⟩] 2).1 (by decide),
   (emotions_to_emojis_bounds [] 2).2.2 (Or.inl rfl)⟩

/-- C7: with at least one candidate, the mapper output is the emoji image of
the leading `top_k` kept candidates, where the kept list arises from the
stable descending-by-weight sort of the generated candidates: the sort is a
permutation of the generation list, is sorted descending by weight, preserves
the generation order of every in-order pair (in particular of every
equal-weight pair: label rank first, then within-label emoji-set order); the
kept list is a subsequence of the sorted list and each kept candidate is the
first occurrence of its emoji in the sorted list, with no emoji lost. -/
theorem emotions_to_emojis_ranking (scores : List EmotionScore) (top_k : ℕ)
    (h : genCandidates scores ≠ []) :
    emotions_to_emojis scores top_k
      = ((dedupFirst (List.insertionSort weightRel (genCandidates scores)) []).take
          top_k).map EmojiCandidate.emoji
    ∧ (List.insertionSort weightRel (genCandidates scores)).Perm (genCandidates scores)
    ∧ (List.insertionSort weightRel (genCandidates scores)).Pairwise weightRel
    ∧ (∀ a b : EmojiCandidate, List.Sublist [a, b] (genCandidates scores) →
        b.weight ≤ a.weight →
        List.Sublist [a, b] (List.insertionSort weightRel (genCandidates scores)))
    ∧ List.Sublist (dedupFirst (List.insertionSort weightRel (genCandidates scores)) [])
        (List.insertionSort weightRel (genCandidates scores))
    ∧ (∀ d ∈ dedupFirst (List.insertionSort weightRel (genCandidates scores)) [],
        (List.insertionSort weightRel (genCandidates scores)).find?
          (fun c => c.emoji == d.emoji) = some d)
    ∧ (∀ c ∈ List.insertionSort weightRel (genCandidates scores),
        c.emoji ∈ (dedupFirst (List.insertionSort weightRel (genCandidates scores))
          []).map EmojiCandidate.emoji) := by
  refine ⟨?_, List.perm_insertionSort weightRel _, ?_, ?_, dedupFirst_sublist _ _,
    dedupFirst_find _ _, ?_⟩
  · simp only [emotions_to_emojis, if_neg h]
  · exact List.sorted_insertionSort weightRel _
  · intro a b hsub hw
    exact List.pair_sublist_insertionSort hw hsub
  · intro c hc
    exact dedupFirst_covers _ [] c hc (by simp)

/-- C7, witness at a two-label ScoreList. -/
theorem emotions_to_emojis_ranking_witness :
    genCandidates [⟨"happy", (1 : ℚ)⟩, ⟨"calm", (1 : ℚ)⟩] ≠ []
    ∧ emotions_to_emojis [⟨"happy", (1 : ℚ)⟩, ⟨"calm", (1 : ℚ)⟩] 4
      = ((dedupFirst (List.insertionSort weightRel
          (genCandidates [⟨"happy", (1 : ℚ)⟩, ⟨"calm", (1 : ℚ)⟩])) []).take
            4).map EmojiCandidate.emoji :=
  ⟨by decide,
   (emotions_to_emojis_ranking [⟨"happy", (1 : ℚ)⟩, ⟨"calm", (1 : ℚ)⟩] 4 (by decide)).1⟩

/-- Candidate expansion depends on an entry only through its lowercased label
and its score. -/
theorem candidatesOf_congr (a b : EmotionScore)
    (he : pyLower a.emotion = pyLower b.emotion) (hs : a.score = b.score) :
    candidatesOf a = candidatesOf b := by
  unfold candidatesOf
  rw [he, hs]

/-- Candidate generation is invariant under case changes of the labels. -/
theorem map_candidatesOf_congr (u v : List EmotionScore)
    (h : List.Forall₂
      (fun a b => pyLower a.emotion = pyLower b.emotion ∧ a.score = b.score) u v) :
    u.map candidatesOf = v.map candidatesOf := by
  induction h with
  | nil => rfl
  | cons hab _ ih =>
      simp only [List.map_cons, ih, candidatesOf_congr _ _ hab.1 hab.2]

/-- Candidate generation is invariant under case changes of the labels. -/
theorem genCandidates_congr (s t : List EmotionScore)
    (h : List.Forall₂
      (fun a b => pyLower a.emotion = pyLower b.emotion ∧ a.score = b.score) s t) :
    genCandidates s = genCandidates t := by
  unfold genCandidates
  congr 1
  exact map_candidatesOf_congr _ _ (List.forall₂_take 5 h)

/-- C10: the mapper looks labels up only after lowercasing, so two ScoreLists
that agree entrywise up to letter case (same lowercase form, same score)
produce the same emoji output, for every `top_k`. -/
theorem emotions_to_emojis_case_insensitive (s t : List EmotionScore) (top_k : ℕ)
    (h : List.Forall₂
      (fun a b => pyLower a.emotion = pyLower b.emotion ∧ a.score = b.score) s t) :
    emotions_to_emojis s top_k = emotions_to_emojis t top_k := by
  have hc : genCandidates s = genCandidates t := genCandidates_congr s t h
  simp only [emotions_to_emojis, hc]

/-- C10, witness: upper-cased label, same output. -/
theorem emotions_to_emojis_case_insensitive_witness :
    emotions_to_emojis [⟨"HAPPY", (1 : ℚ)⟩] 3
      = emotions_to_emojis [⟨"happy", (1 : ℚ)⟩] 3 :=
  emotions_to_emojis_case_insensitive _ _ 3
    (List.Forall₂.cons ⟨by decide, rfl⟩ List.Forall₂.nil)

/-- C3: a decoded signal of duration strictly below the minimum always yields
the too-short failure; a decoded signal of duration strictly above the
maximum never errors and is truncated to exactly
`MAX_AUDIO_LENGTH_SECONDS * sr` samples. -/
theorem load_audio_duration_policy (audio : List ℚ) (sr : ℕ) (hsr : 0 < sr) :
    ((audio.length : ℚ) / (sr : ℚ) < (MIN_AUDIO_LENGTH_SECONDS : ℚ) →
      load_audio audio sr = .error (.tooShort ((audio.length : ℚ) / (sr : ℚ))))
    ∧ ((audio.length : ℚ) / (sr : ℚ) > (MAX_AUDIO_LENGTH_SECONDS : ℚ) →
      load_audio audio sr = .ok (audio.take (MAX_AUDIO_LENGTH_SECONDS * sr), sr)
      ∧ (audio.take (MAX_AUDIO_LENGTH_SECONDS * sr)).length
          = MAX_AUDIO_LENGTH_SECONDS * sr) := by
  constructor
  · intro h
    simp only [load_audio, if_pos h]
  · intro h
    have hsr' : (0 : ℚ) < (sr : ℚ) := by exact_mod_cast hsr
    have hnotlt : ¬((audio.length : ℚ) / (sr : ℚ) < (MIN_AUDIO_LENGTH_SECONDS : ℚ)) := by
      simp only [MIN_AUDIO_LENGTH_SECONDS, MAX_AUDIO_LENGTH_SECONDS] at h ⊢
      push_cast at h ⊢
      linarith
    have hlen : MAX_AUDIO_LENGTH_SECONDS * sr < audio.length := by
      rw [gt_iff_lt, lt_div_iff₀ hsr'] at h
      exact_mod_cast h
    refine ⟨?_, ?_⟩
    · simp only [load_audio, if_neg hnotlt, if_pos h]
    · rw [List.length_take]
      exact min_eq_left (le_of_lt hlen)

/-- C3, witness: at a 2 Hz rate a single sample (half a second) fails as too
short, and 61 samples at 1 Hz (61 seconds) are cut to exactly
`MAX_AUDIO_LENGTH_SECONDS * 1` samples. -/
theorem load_audio_duration_policy_witness :
    load_audio [(0 : ℚ)] 2
      = .error (.tooShort ((([(0 : ℚ)].length : ℚ)) / (2 : ℚ)))
    ∧ (load_audio (List.replicate 61 (0 : ℚ)) 1
        = .ok ((List.replicate 61 (0 : ℚ)).take (MAX_AUDIO_LENGTH_SECONDS * 1), 1)
      ∧ ((List.replicate 61 (0 : ℚ)).take (MAX_AUDIO_LENGTH_SECONDS * 1)).length
            = MAX_AUDIO_LENGTH_SECONDS * 1) :=
  ⟨(load_audio_duration_policy _ 2 (by norm_num)).1
      (by simp [MIN_AUDIO_LENGTH_SECONDS]; norm_num),
   (load_audio_duration_policy _ 1 (by norm_num)).2
      (by simp [MAX_AUDIO_LENGTH_SECONDS]; norm_num)⟩

/-- C4: any pooling mode other than mean/sum/max fails with the invalid-mode
error, for every hidden-state input; no fallback result is produced. -/
theorem merged_strategy_invalid_mode (hidden_states : List (List ℚ)) (mode : String)
    (h1 : mode ≠ "mean") (h2 : mode ≠ "sum") (h3 : mode ≠ "max") :
    merged_strategy hidden_states mode = .error .invalidPoolingMode := by
  simp [merged_strategy, h1, h2, h3]

/-- C4, witness. -/
theorem merged_strategy_invalid_mode_witness :
    merged_strategy [[1]] "median" = .error .invalidPoolingMode :=
  merged_strategy_invalid_mode [[1]] "median" (by decide) (by decide) (by decide)

/-- C8: on a single-frame hidden-state sequence, each of the three supported
pooling strategies returns exactly that frame's vector. -/
theorem merged_strategy_single_frame (v : List ℚ) (mode : String)
    (h : mode = "mean" ∨ mode = "sum" ∨ mode = "max") :
    merged_strategy [v] mode = .ok v := by
  have hsum : sumPool [v] = v := rfl
  have hmax : maxPool [v] = v := rfl
  have hmean : meanPool [v] = v := by
    unfold meanPool
    rw [hsum]
    simp
  rcases h with rfl | rfl | rfl
  · simp [merged_strategy, hmean]
  · simp [merged_strategy, hsum]
  · simp [merged_strategy, hmax]

/-- C8, witness. -/
theorem merged_strategy_single_frame_witness :
    merged_strategy [[(3 : ℚ), 4]] "mean" = .ok [(3 : ℚ), 4] :=
  merged_strategy_single_frame [(3 : ℚ), 4] "mean" (Or.inl rfl)

/-- C9: a model configuration without a `pooling_mode` attribute yields a
classifier whose pooling mode is `"mean"`, and every forward pass pools with
the mean strategy (no failure at construction or inference). -/
theorem pooling_mode_defaults_to_mean (config : Wav2Vec2Config)
    (h : config.pooling_mode = none) :
    init_pooling_mode config = "mean"
    ∧ ∀ hidden_states,
        forward_pooling config hidden_states = .ok (meanPool hidden_states) := by
  have hm : init_pooling_mode config = "mean" := by
    simp [init_pooling_mode, h]
  exact ⟨hm, fun hs => by simp [forward_pooling, hm, merged_strategy]⟩

/-- C9, witness. -/
theorem pooling_mode_defaults_to_mean_witness :
    init_pooling_mode ⟨none⟩ = "mean"
    ∧ forward_pooling ⟨none⟩ [[(2 : ℚ)]] = .ok (meanPool [[(2 : ℚ)]]) :=
  ⟨(pooling_mode_defaults_to_mean ⟨none⟩ rfl).1,
   (pooling_mode_defaults_to_mean ⟨none⟩ rfl).2 [[(2 : ℚ)]]⟩

/-- C6, counterexample: in src/Model/app.py a valid request with the model
still uninitialized enters the pipeline and answers 500, not a 503
not-ready failure, so the claim fails for that service. -/
theorem predict_route_ignores_readiness :
    (predict_route false ⟨true, true, true, true⟩ true).status = 500
    ∧ (predict_route false ⟨true, true, true, true⟩ true).pipeline_invoked = true
    ∧ ¬((predict_route false ⟨true, true, true, true⟩ true).status = 503) := by
  decide

/-- C6 (amended): the ml-service guards readiness — with either model not
loaded, `analyze_audio` answers 503 without entering the pipeline, for every
request; the Model service has no readiness check — with the model not
loaded, a fully valid request still enters the pipeline and answers a
generic 500. -/
theorem readiness_gating (d w haf p : Bool) (req : PredictRequest) (q : Bool)
    (hnotready : ¬(d = true ∧ w = true))
    (hreq : req.has_json = true ∧ req.has_audio_path = true
      ∧ req.path_exists = true ∧ req.path_is_file = true) :
    analyze_audio d w haf p = ⟨503, false, false⟩
    ∧ predict_route false req q = ⟨500, false, true⟩ := by
  constructor
  · have hdw : (d && w) = false := by
      cases d <;> cases w <;> simp_all
    simp [analyze_audio, hdw]
  · obtain ⟨h1, h2, h3, h4⟩ := hreq
    simp [predict_route, h1, h2, h3, h4]

/-- C6, witness. -/
theorem readiness_gating_witness :
    analyze_audio false true true true = ⟨503, false, false⟩
    ∧ predict_route false ⟨true, true, true, true⟩ true = ⟨500, false, true⟩ :=
  readiness_gating false true true true ⟨true, true, true, true⟩ true
    (by decide) (by decide)

/-! ## Lemmas about softmax, the detector ScoreList and argmax -/

theorem sum_map_div (l : List ℝ) (c : ℝ) :
    (l.map (fun x => x / c)).sum = l.sum / c := by
  induction l with
  | nil => simp
  | cons x xs ih => simp [ih, add_div]

theorem softmax_length (logits : List ℝ) :
    (softmax logits).length = logits.length := by
  simp [softmax]

theorem exp_sum_pos (logits : List ℝ) (h : logits ≠ []) :
    0 < (logits.map Real.exp).sum := by
  apply List.sum_pos
  · intro x hx
    rcases List.mem_map.mp hx with ⟨y, _, rfl⟩
    exact Real.exp_pos y
  · simpa using h

theorem softmax_sum (logits : List ℝ) (h : logits ≠ []) :
    (softmax logits).sum = 1 := by
  unfold softmax
  have hpos := exp_sum_pos logits h
  have hmm : logits.map (fun x => Real.exp x / (logits.map Real.exp).sum)
      = (logits.map Real.exp).map (fun y => y / (logits.map Real.exp).sum) := by
    rw [List.map_map]
    rfl
  rw [hmm, sum_map_div, div_self (ne_of_gt hpos)]

theorem softmax_mem_bounds (logits : List ℝ) (h : logits ≠ []) :
    ∀ p ∈ softmax logits, 0 ≤ p ∧ p ≤ 1 := by
  intro p hp
  rcases List.mem_map.mp hp with ⟨x, hx, rfl⟩
  have hpos := exp_sum_pos logits h
  constructor
  · exact le_of_lt (div_pos (Real.exp_pos x) hpos)
  · rw [div_le_one hpos]
    exact List.single_le_sum
      (fun y hy => by
        rcases List.mem_map.mp hy with ⟨z, _, rfl⟩
        exact (Real.exp_pos z).le)
      _ (List.mem_map_of_mem Real.exp hx)

theorem map_emotion_zipWith : ∀ (ls : List String) (ps : List ℝ),
    ls.length = ps.length →
    (List.zipWith (fun e s => DetScore.mk e s) ls ps).map DetScore.emotion = ls
  | [], [], _ => rfl
  | [], _ :: _, h => by simp at h
  | _ :: _, [], h => by simp at h
  | l :: ls, p :: ps, h => by
      simp only [List.zipWith_cons_cons, List.map_cons]
      rw [map_emotion_zipWith ls ps (by simpa using h)]

theorem map_score_zipWith : ∀ (ls : List String) (ps : List ℝ),
    ls.length = ps.length →
    (List.zipWith (fun e s => DetScore.mk e s) ls ps).map DetScore.score = ps
  | [], [], _ => rfl
  | [], _ :: _, h => by simp at h
  | _ :: _, [], h => by simp at h
  | l :: ls, p :: ps, h => by
      simp only [List.zipWith_cons_cons, List.map_cons]
      rw [map_score_zipWith ls ps (by simpa using h)]

/-- C1: for a label list matching the logit count, the detector's ScoreList
covers exactly the label set (as a permutation: one entry per label, no
others), every probability lies in `[0, 1]`, the probabilities sum to `1`
exactly (hence within the `1e-4` tolerance), and the list is sorted
descending by score. -/
theorem detector_predict_scorelist (labels : List String) (logits : List ℝ)
    (hlen : labels.length = logits.length) (hne : logits ≠ []) :
    ((detector_predict labels logits).map DetScore.emotion).Perm labels
    ∧ (∀ p ∈ detector_predict labels logits, 0 ≤ p.score ∧ p.score ≤ 1)
    ∧ ((detector_predict labels logits).map DetScore.score).sum = 1
    ∧ |((detector_predict labels logits).map DetScore.score).sum - 1| ≤ 1 / 10000
    ∧ (detector_predict labels logits).Pairwise detRel := by
  have hlen2 : labels.length = (softmax logits).length := by
    rw [softmax_length]
    exact hlen
  have hperm : (detector_predict labels logits).Perm
      (List.zipWith (fun e s => DetScore.mk e s) labels (softmax logits)) :=
    List.perm_insertionSort detRel _
  have hemo := hperm.map DetScore.emotion
  have hsco := hperm.map DetScore.score
  rw [map_emotion_zipWith labels (softmax logits) hlen2] at hemo
  rw [map_score_zipWith labels (softmax logits) hlen2] at hsco
  have hsum : ((detector_predict labels logits).map DetScore.score).sum = 1 := by
    rw [hsco.sum_eq]
    exact softmax_sum logits hne
  refine ⟨hemo, ?_, hsum, by rw [hsum]; norm_num, List.sorted_insertionSort detRel _⟩
  intro p hp
  have hp2 : p.score ∈ softmax logits := by
    have : p.score ∈ (List.zipWith (fun e s => DetScore.mk e s) labels
        (softmax logits)).map DetScore.score :=
      List.mem_map_of_mem DetScore.score (hperm.mem_iff.mp hp)
    rwa [map_score_zipWith labels (softmax logits) hlen2] at this
  exact softmax_mem_bounds logits hne _ hp2

/-- C1, witness at two labels and logits `[0, 1]`. -/
theorem detector_predict_scorelist_witness :
    ((detector_predict ["angry", "happy"] [0, 1]).map DetScore.score).sum = 1 :=
  (detector_predict_scorelist ["angry", "happy"] [0, 1] rfl (by simp)).2.2.1

theorem argmaxIdx_lt_length : ∀ (l : List ℝ), l ≠ [] → argmaxIdx l < l.length
  | [], h => absurd rfl h
  | [_] , _ => by simp [argmaxIdx]
  | x :: y :: rest, _ => by
      have ih := argmaxIdx_lt_length (y :: rest) (by simp)
      simp only [argmaxIdx]
      split
      · simp only [List.length_cons] at ih ⊢
        omega
      · simp

theorem le_getD_argmaxIdx : ∀ (l : List ℝ), ∀ z ∈ l, z ≤ l.getD (argmaxIdx l) 0
  | [], z, hz => absurd hz (List.not_mem_nil z)
  | [x], z, hz => by
      simp only [argmaxIdx]
      rcases List.mem_singleton.mp hz with rfl
      simp
  | x :: y :: rest, z, hz => by
      have ih := fun w hw => le_getD_argmaxIdx (y :: rest) w hw
      simp only [argmaxIdx]
      split
      · next hx =>
          rw [List.getD_cons_succ]
          rcases List.mem_cons.mp hz with rfl | hz2
          · exact le_of_lt hx
          · exact ih z hz2
      · next hx =>
          rw [List.getD_cons_zero]
          rcases List.mem_cons.mp hz with rfl | hz2
          · exact le_refl z
          · exact le_trans (ih z hz2) (not_lt.mp hx)

/-- C5: the reported label is the one at the argmax of the softmax scores:
the (label, confidence) pair occurs in `all_scores`, the confidence bounds
every score of `all_scores`, and every `all_scores` entry carrying the
predicted label carries exactly the confidence (so the mapping sends the
predicted label to the maximum). -/
theorem predict_emotion_argmax (logits : List ℝ) (h8 : logits.length = 8) :
    ((predict_emotion logits).predicted_emotion,
        (predict_emotion logits).confidence) ∈ (predict_emotion logits).all_scores
    ∧ (∀ p ∈ (predict_emotion logits).all_scores,
        p.2 ≤ (predict_emotion logits).confidence)
    ∧ (∀ p ∈ (predict_emotion logits).all_scores,
        p.1 = (predict_emotion logits).predicted_emotion →
        p.2 = (predict_emotion logits).confidence) := by
  have hslen : (softmax logits).length = 8 := by rw [softmax_length, h8]
  have hne : softmax logits ≠ [] := by
    intro hc
    rw [hc] at hslen
    simp at hslen
  have hElen : EMOTIONS.length = 8 := rfl
  have hiS : argmaxIdx (softmax logits) < (softmax logits).length := by
    exact argmaxIdx_lt_length _ hne
  have hiE : argmaxIdx (softmax logits) < EMOTIONS.length := by
    rw [hElen]
    rw [hslen] at hiS
    exact hiS
  have hall : (predict_emotion logits).all_scores = EMOTIONS.zip (softmax logits) := rfl
  have hpe : (predict_emotion logits).predicted_emotion
      = EMOTIONS.getD (argmaxIdx (softmax logits)) "" := rfl
  have hconf : (predict_emotion logits).confidence
      = (softmax logits).getD (argmaxIdx (softmax logits)) 0 := rfl
  have hgetE : EMOTIONS.getD (argmaxIdx (softmax logits)) ""
      = EMOTIONS[argmaxIdx (softmax logits)] := List.getD_eq_getElem _ _ hiE
  have hgetS : (softmax logits).getD (argmaxIdx (softmax logits)) 0
      = (softmax logits)[argmaxIdx (softmax logits)] := List.getD_eq_getElem _ _ hiS
  have hzlen : argmaxIdx (softmax logits) < (EMOTIONS.zip (softmax logits)).length := by
    rw [List.length_zip, hElen, hslen]
    rw [hslen] at hiS
    simpa using hiS
  refine ⟨?_, ?_, ?_⟩
  · rw [hall, hpe, hconf, hgetE, hgetS]
    have hz : (EMOTIONS.zip (softmax logits))[argmaxIdx (softmax logits)]
        = (EMOTIONS[argmaxIdx (softmax logits)],
            (softmax logits)[argmaxIdx (softmax logits)]) :=
      List.getElem_zip (h := hzlen)
    exact hz ▸ List.getElem_mem hzlen
  · intro p hp
    rw [hall] at hp
    rw [hconf]
    exact le_getD_argmaxIdx (softmax logits) p.2 (List.of_mem_zip hp).2
  · intro p hp hp1
    rw [hall] at hp
    obtain ⟨j, hj, hpj⟩ := List.getElem_of_mem hp
    have hjE : j < EMOTIONS.length := by
      rw [List.length_zip] at hj
      omega
    have hjS : j < (softmax logits).length := by
      rw [List.length_zip] at hj
      rw [hslen]
      rw [hElen, hslen] at hj
      simpa using hj
    have hpj2 : p = (EMOTIONS[j], (softmax logits)[j]) := by
      rw [← hpj]
      exact (List.getElem_zip (h := hj)).symm ▸ rfl
    rw [hpe, hgetE] at hp1
    have hj_eq : EMOTIONS[j] = EMOTIONS[argmaxIdx (softmax logits)] := by
      rw [← hp1, hpj2]
    have hnodup : EMOTIONS.Nodup := by decide
    have hji : j = argmaxIdx (softmax logits) := by
      exact hnodup.getElem_inj_iff.mp hj_eq
    subst hji
    rw [hconf, hgetS, hpj2]

/-- C5, witness at uniform logits. -/
theorem predict_emotion_argmax_witness :
    ((predict_emotion (List.replicate 8 (0 : ℝ))).predicted_emotion,
        (predict_emotion (List.replicate 8 (0 : ℝ))).confidence)
      ∈ (predict_emotion (List.replicate 8 (0 : ℝ))).all_scores :=
  (predict_emotion_argmax (List.replicate 8 (0 : ℝ)) (by simp)).1
